import Mathlib

/-!
Verification development for the `llvm-rs-cc` compiler driver
(`llvm-rs-cc.cpp`): response-file argument expansion, option resolution
and output-path planning, shallowly embedded in Lean.

Strings are modelled by Lean `String`; the raw character buffer of a
response file is modelled by its `List Char` of characters, with the end
of the list playing the role of the C NUL terminator.  The file system
seen by response-file expansion is modelled by a map
`fs : String → Option String` (`none` = the file cannot be opened).
-/

namespace LlvmRsCc

/-- `slang::Slang::OutputType` (from `slang.h`, used throughout
`llvm-rs-cc.cpp`). -/
inductive OutputType where
  | OT_Dependency
  | OT_Assembly
  | OT_LLVMAssembly
  | OT_Bitcode
  | OT_Nothing
  | OT_Object
deriving DecidableEq

/-- `OS_PATH_SEPARATOR` on the target platform (POSIX). -/
def OS_PATH_SEPARATOR : Char := '/'

/-- Characters of a path after the last path separator (the base name). -/
def basenameChars (l : List Char) : List Char :=
  l.foldl (fun acc c => if c = OS_PATH_SEPARATOR then [] else acc ++ [c]) []

/-- Drop the extension: everything from the last dot (inclusive) of the
base name is removed; a name without a dot is kept whole. -/
def stripExt (l : List Char) : List Char :=
  let r := l.reverse
  if r.contains '.' then ((r.dropWhile (fun c => !(c == '.'))).drop 1).reverse
  else l

/-- Modelled from the spec: `slang::RSSlangReflectUtils::GetFileNameStem`
(defined in `slang_rs_reflect_utils.cpp`, which is not part of the core
source): "the base name is the input's stem with its original extension
stripped". -/
def GetFileNameStem (fileName : String) : String :=
  String.mk (stripExt (basenameChars fileName.data))

/-- Modelled from the spec:
`slang::RSSlangReflectUtils::BCFileNameFromRSFileName` (defined in
`slang_rs_reflect_utils.cpp`, which is not part of the core source): "the
base name is derived by a fixed source-extension → no-extension transform
shared with the dependency-file-naming convention", i.e. the same stem
transform. -/
def BCFileNameFromRSFileName (rsFileName : String) : String :=
  GetFileNameStem rsFileName

/-- `DetermineOutputFile` (`llvm-rs-cc.cpp`, lines 276 to 327).  String
interning through `SaveStringInSet` is identity on the string value and is
omitted. -/
def DetermineOutputFile (OutputDir : String) (InputFile : String)
    (OutputType' : OutputType) : String :=
  if OutputType' = .OT_Nothing then "/dev/null"
  else
    let OutputFile := OutputDir
    -- Append '/' to Opts.mOutputDir if not presents
    let OutputFile :=
      if OutputFile ≠ "" && !(OutputFile.data.getLast? == some OS_PATH_SEPARATOR)
      then OutputFile.push OS_PATH_SEPARATOR else OutputFile
    let OutputFile :=
      if OutputType' = .OT_Dependency
      then OutputFile ++ GetFileNameStem InputFile
      else OutputFile ++ BCFileNameFromRSFileName InputFile
    match OutputType' with
    | .OT_Dependency => OutputFile ++ ".d"
    | .OT_Assembly => OutputFile ++ ".S"
    | .OT_LLVMAssembly => OutputFile ++ ".ll"
    | .OT_Object => OutputFile ++ ".o"
    | .OT_Bitcode => OutputFile ++ ".bc"
    | .OT_Nothing => OutputFile  -- unreachable: guarded above (slangAssert in the source)

/-- The options of `RSCCOptions` relevant to option resolution and output
planning (`llvm-rs-cc.cpp`, lines 103 to 156); fields that are merely
forwarded to the external compiler collaborator are omitted. -/
structure RSCCOptions where
  mIncludePaths : List String
  mOutputDir : String
  mOutputType : OutputType
  mOutputDep : Bool
  mOutputDepDir : String
deriving DecidableEq

/-- An argument occurrence as produced by the (external) clang `OptTable`
parse of the expanded vector, restricted to the options consulted by the
modelled part of `ParseArguments`. -/
inductive RSArg where
  | input (v : String)
  | includeDir (v : String)
  | o (v : String)
  | M
  | MD
  | emit_asm
  | emit_llvm
  | emit_bc
  | emit_nothing
  | output_dep_dir (v : String)
deriving DecidableEq

/-- Membership in `OPT_M_Group`. -/
def isMGroup : RSArg → Bool
  | .M => true
  | .MD => true
  | _ => false

/-- Membership in `OPT_Output_Type_Group`. -/
def isOutputTypeGroup : RSArg → Bool
  | .emit_asm => true
  | .emit_llvm => true
  | .emit_bc => true
  | .emit_nothing => true
  | _ => false

/-- Value of a positional (`InputClass`) argument. -/
def inputValue : RSArg → Option String
  | .input v => some v
  | _ => none

/-- Value of an `-I` argument. -/
def includeValue : RSArg → Option String
  | .includeDir v => some v
  | _ => none

/-- Value of a `-o` argument. -/
def oValue : RSArg → Option String
  | .o v => some v
  | _ => none

/-- Value of an `-output-dep-dir` argument. -/
def outputDepDirValue : RSArg → Option String
  | .output_dep_dir v => some v
  | _ => none

/-- `clang::driver::ArgList::getLastArg` restricted to a group predicate:
the last argument in command-line order satisfying the predicate. -/
def getLastArg (p : RSArg → Bool) (args : List RSArg) : Option RSArg :=
  (args.filter p).getLast?

/-- `clang::driver::ArgList::getLastArgValue`: the value of the last
occurrence of a value-bearing option, or the default. -/
def getLastStringValue (f : RSArg → Option String) (dflt : String)
    (args : List RSArg) : String :=
  ((args.filterMap f).getLast?).getD dflt

/-- The state of `Opts` after the `OPT_M_Group` switch of `ParseArguments`
(`llvm-rs-cc.cpp`, lines 193 to 209). -/
def applyMGroup (opts : RSCCOptions) (args : List RSArg) : RSCCOptions :=
  match getLastArg isMGroup args with
  | some .M => { opts with mOutputDep := true, mOutputType := .OT_Dependency }
  | some .MD => { opts with mOutputDep := true, mOutputType := .OT_Bitcode }
  | _ => opts

/-- The state of `Opts` after the `OPT_Output_Type_Group` switch of
`ParseArguments` (`llvm-rs-cc.cpp`, lines 211 to 233). -/
def applyOutputTypeGroup (opts : RSCCOptions) (args : List RSArg) : RSCCOptions :=
  match getLastArg isOutputTypeGroup args with
  | some .emit_asm => { opts with mOutputType := .OT_Assembly }
  | some .emit_llvm => { opts with mOutputType := .OT_LLVMAssembly }
  | some .emit_bc => { opts with mOutputType := .OT_Bitcode }
  | some .emit_nothing => { opts with mOutputType := .OT_Nothing }
  | _ => opts

/-- The condition under which `ParseArguments` reports
`err_drv_argument_not_allowed_with` (`llvm-rs-cc.cpp`, lines 235 to 240). -/
def invalidCombination (opts : RSCCOptions) : Bool :=
  opts.mOutputDep && !(opts.mOutputType == .OT_Bitcode)
    && !(opts.mOutputType == .OT_Dependency)

/-- The state of `Opts` before the two group switches: the
`RSCCOptions()` constructor defaults overlaid with the include paths and
`-o` value (`llvm-rs-cc.cpp`, lines 143 to 155 and 189 to 191). -/
def opts0 (args : List RSArg) : RSCCOptions :=
  { mIncludePaths := args.filterMap includeValue
    mOutputDir := getLastStringValue oValue "" args
    mOutputType := .OT_Bitcode
    mOutputDep := false
    mOutputDepDir := "" }

/-- The state of `Opts` after both group switches (`llvm-rs-cc.cpp`,
lines 189 to 233), at which point the invalid-combination check runs. -/
def resolvedOpts (args : List RSArg) : RSCCOptions :=
  applyOutputTypeGroup (applyMGroup (opts0 args) args) args

/-- `ParseArguments` (`llvm-rs-cc.cpp`, lines 158 to 274), restricted to
the modelled options.  `args` is the expanded argument vector after the
program name.  Returns the resolved options, the positional inputs, and
whether the invalid-combination diagnostic was reported.  The field
assignments follow the source order: include paths and `-o`, the
`OPT_M_Group` switch, the `OPT_Output_Type_Group` switch, the
invalid-combination check, then `-output-dep-dir` defaulting to
`Opts.mOutputDir`. -/
def ParseArguments (args : List RSArg) : RSCCOptions × List String × Bool :=
  ({ resolvedOpts args with
     mOutputDepDir :=
       getLastStringValue outputDepDirValue (resolvedOpts args).mOutputDir args },
   args.filterMap inputValue,
   invalidCombination (resolvedOpts args))

/-- The per-input planning step of `main` (`llvm-rs-cc.cpp`, lines 407 to
436): the `IOFiles` entry and, when dependency output is enabled, the
`DepFiles` entry for one input file. -/
def planOne (opts : RSCCOptions) (InputFile : String) :
    (String × String) × Option (String × String) :=
  let OutputFile := DetermineOutputFile opts.mOutputDir InputFile opts.mOutputType
  if opts.mOutputDep then
    let BCOutputFile :=
      if opts.mOutputType = .OT_Bitcode then OutputFile
      else DetermineOutputFile opts.mOutputDepDir InputFile .OT_Bitcode
    let DepOutputFile :=
      if opts.mOutputType = .OT_Dependency then OutputFile
      else DetermineOutputFile opts.mOutputDepDir InputFile .OT_Dependency
    ((InputFile, OutputFile), some (BCOutputFile, DepOutputFile))
  else
    ((InputFile, OutputFile), none)

/-- The planning loop of `main` (`llvm-rs-cc.cpp`, lines 407 to 436):
`IOFiles` and `DepFiles` accumulated over the inputs in order. -/
def planOutputs (opts : RSCCOptions) :
    List String → List (String × String) × List (String × String)
  | [] => ([], [])
  | f :: rest =>
    let p := planOne opts f
    let r := planOutputs opts rest
    (p.1 :: r.1, match p.2 with
                 | some d => d :: r.2
                 | none => r.2)

/-! ### Response-file tokenization and argument expansion -/

/-- The double-quote character. -/
def dquote : Char := Char.ofNat 34

/-- The single-quote character. -/
def squote : Char := Char.ofNat 39

/-- The backslash character. -/
def backslash : Char := Char.ofNat 92

/-- C `isspace` in the default locale, as used by `ExpandArgsFromBuf`. -/
def cIsSpace (c : Char) : Bool :=
  c == ' ' || c == Char.ofNat 9 || c == Char.ofNat 10 || c == Char.ofNat 11
    || c == Char.ofNat 12 || c == Char.ofNat 13

/-- Flushing `CurArg` into the output vector: pushed only when nonempty. -/
def flushArg (acc : List String) (cur : String) : List String :=
  if cur == "" then acc else acc ++ [cur]

/-- The scanning loop of `ExpandArgsFromBuf` (`llvm-rs-cc.cpp`, lines 469
to 513), as a function from the remaining buffer characters to the raw
tokens (the dispatch of `@`-tokens to recursive expansion is layered on
top, in `expandList`; it preserves this left-to-right order).  `q` is
`InQuote`, `cur` is `CurArg`, `acc` the tokens pushed so far; the end of
the character list is the NUL terminator.  The result is `none` exactly
when the scan steps past the terminator: in the source, a backslash as
the last buffer character makes `++P` skip the NUL check and the loop
keeps reading out of bounds. -/
def tokLoop : Char → String → List String → List Char → Option (List String)
  | _, cur, acc, [] => some (flushArg acc cur)
  | q, cur, acc, c :: rest =>
    if cIsSpace c && (q == ' ') then tokLoop q "" (flushArg acc cur) rest
    else if cIsSpace c then tokLoop q (cur.push c) acc rest
    else if c == dquote || c == squote then
      (if q == c then tokLoop ' ' cur acc rest
       else if q == ' ' then tokLoop c cur acc rest
       else tokLoop q (cur.push c) acc rest)
    else if c == backslash then
      (match rest with
       | [] => none  -- `++P` steps past the NUL terminator: out-of-bounds read
       | d :: rest2 => tokLoop q (cur.push d) acc rest2)
    else tokLoop q (cur.push c) acc rest

/-- Tokenize a whole response-file buffer: the loop started with
`InQuote = ' '` and an empty `CurArg`. -/
def tokenize (buf : List Char) : Option (List String) :=
  tokLoop ' ' "" [] buf

/-- `Arg[0] == '@'`: the token names a response file.  The empty string
has `Arg[0] == 0`, hence is not an `@`-token. -/
def isAtArg (s : String) : Bool :=
  s.data.head? == some '@'

/-- `FName = Arg + 1`: the file name after the leading `@`. -/
def argFileName (s : String) : String :=
  String.mk (s.data.drop 1)

/-- Concatenation of two optional token vectors; `none` (out-of-bounds or
out-of-fuel) is absorbing. -/
def optAppend (a b : Option (List String)) : Option (List String) :=
  match a, b with
  | some x, some y => some (x ++ y)
  | _, _ => none

/-- The joint recursion of `ExpandArgv` and `ExpandArgsFromBuf`
(`llvm-rs-cc.cpp`, lines 457 to 529) over a token list: a token that is
not an `@`-token is kept verbatim; an `@`-token whose file cannot be
opened is kept verbatim; otherwise the file's buffer is tokenized and
each resulting token is expanded in place, nested response files one
level of `fuel` deeper.  The source recursion is unbounded (no cycle
guard); `fuel` bounds the modelled nesting depth, and at depth 0 a list
is returned unchanged exactly when it needs no further expansion. -/
def expandList (fs : String → Option String) : Nat → List String → Option (List String)
  | 0, toks =>
    if toks.all (fun t => !(isAtArg t && (fs (argFileName t)).isSome))
    then some toks else none
  | fuel + 1, toks =>
    toks.foldr
      (fun tok acc =>
        optAppend
          (if isAtArg tok then
            match fs (argFileName tok) with
            | none => some [tok]
            | some buf =>
              match tokenize buf.data with
              | none => none
              | some ts => expandList fs fuel ts
           else some [tok])
          acc)
      (some [])

/-- `ExpandArgsFromBuf` (`llvm-rs-cc.cpp`, lines 457 to 514) on one
`@`-token: open the named file (failure keeps the literal token),
tokenize its buffer and expand the tokens, nested files at depth `fuel`. -/
def ExpandArgsFromBuf (fs : String → Option String) (fuel : Nat)
    (arg : String) : Option (List String) :=
  match fs (argFileName arg) with
  | none => some [arg]
  | some buf =>
    match tokenize buf.data with
    | none => none
    | some ts => expandList fs fuel ts

/-- `ExpandArgv` (`llvm-rs-cc.cpp`, lines 516 to 529): every argument of
the vector is expanded in place (non-`@` arguments verbatim). -/
def ExpandArgv (fs : String → Option String) (fuel : Nat)
    (argv : List String) : Option (List String) :=
  expandList fs fuel argv

/-! ### Helper lemmas: option resolution -/

lemma getLastArg_concat (p : RSArg → Bool) (l : List RSArg) (a : RSArg)
    (h : p a = true) : getLastArg p (l ++ [a]) = some a := by
  unfold getLastArg
  rw [List.filter_append]
  simp [List.filter, h]

lemma getLastStringValue_concat (f : RSArg → Option String) (dflt : String)
    (l : List RSArg) (a : RSArg) (v : String) (h : f a = some v) :
    getLastStringValue f dflt (l ++ [a]) = v := by
  unfold getLastStringValue
  rw [List.filterMap_append]
  simp [List.filterMap, h]

lemma applyMGroup_mOutputDir (o : RSCCOptions) (args : List RSArg) :
    (applyMGroup o args).mOutputDir = o.mOutputDir := by
  unfold applyMGroup
  cases h : getLastArg isMGroup args with
  | none => rfl
  | some a => cases a <;> rfl

lemma applyOutputTypeGroup_mOutputDir (o : RSCCOptions) (args : List RSArg) :
    (applyOutputTypeGroup o args).mOutputDir = o.mOutputDir := by
  unfold applyOutputTypeGroup
  cases h : getLastArg isOutputTypeGroup args with
  | none => rfl
  | some a => cases a <;> rfl

lemma applyOutputTypeGroup_mOutputDep (o : RSCCOptions) (args : List RSArg) :
    (applyOutputTypeGroup o args).mOutputDep = o.mOutputDep := by
  unfold applyOutputTypeGroup
  cases h : getLastArg isOutputTypeGroup args with
  | none => rfl
  | some a => cases a <;> rfl

lemma invalid_comb_bool (b : Bool) (t : OutputType) :
    (b && !(t == OutputType.OT_Bitcode) && !(t == OutputType.OT_Dependency)) = true ↔
      (b = true ∧ t ≠ .OT_Bitcode ∧ t ≠ .OT_Dependency) := by
  cases b <;> cases t <;> decide

lemma invalidCombination_eq_true (o : RSCCOptions) :
    invalidCombination o = true ↔
      (o.mOutputDep = true ∧ o.mOutputType ≠ .OT_Bitcode ∧
       o.mOutputType ≠ .OT_Dependency) := by
  unfold invalidCombination
  exact invalid_comb_bool o.mOutputDep o.mOutputType

lemma ParseArguments_mOutputType (args : List RSArg) :
    (ParseArguments args).1.mOutputType = (resolvedOpts args).mOutputType := rfl

lemma ParseArguments_mOutputDep (args : List RSArg) :
    (ParseArguments args).1.mOutputDep = (resolvedOpts args).mOutputDep := rfl

lemma ParseArguments_mOutputDir (args : List RSArg) :
    (ParseArguments args).1.mOutputDir = (resolvedOpts args).mOutputDir := rfl

/-! ### Claim theorems: option resolution -/

/-- C1: option resolution reports the InvalidOptionCombination error if
and only if dependency output was requested (`-M`/`-MD`) and the final
resolved output kind is neither Bitcode nor Dependency; `-M -emit-asm`
reports it, `-M` followed by `-emit-bc` does not. -/
theorem c1_invalid_combination_iff :
    (∀ args : List RSArg,
      (ParseArguments args).2.2 = true ↔
        ((ParseArguments args).1.mOutputDep = true ∧
         (ParseArguments args).1.mOutputType ≠ .OT_Bitcode ∧
         (ParseArguments args).1.mOutputType ≠ .OT_Dependency))
    ∧ (ParseArguments [.M, .emit_asm]).2.2 = true
    ∧ (ParseArguments [.M, .emit_bc]).2.2 = false := by
  refine ⟨fun args => ?_, by decide, by decide⟩
  exact invalidCombination_eq_true (resolvedOpts args)

/-- C1 witness: `-M -emit-asm` makes the invalid-combination report and
the resolved state agree, via the general theorem at a concrete input. -/
theorem c1_invalid_combination_iff_witness :
    (ParseArguments [RSArg.M, RSArg.emit_asm]).2.2 = true :=
  c1_invalid_combination_iff.2.1

/-- C6: the last member of the output-kind group determines the resolved
output kind (whatever precedes it); `-emit-bc -emit-asm` resolves to
Assembly; for the single-valued `-o`, the last occurrence's value wins. -/
theorem c6_last_occurrence_wins :
    (∀ args : List RSArg,
      (ParseArguments (args ++ [RSArg.emit_asm])).1.mOutputType = .OT_Assembly)
    ∧ (∀ args : List RSArg,
      (ParseArguments (args ++ [RSArg.emit_llvm])).1.mOutputType = .OT_LLVMAssembly)
    ∧ (∀ args : List RSArg,
      (ParseArguments (args ++ [RSArg.emit_bc])).1.mOutputType = .OT_Bitcode)
    ∧ (∀ args : List RSArg,
      (ParseArguments (args ++ [RSArg.emit_nothing])).1.mOutputType = .OT_Nothing)
    ∧ (∀ (args : List RSArg) (v : String),
      (ParseArguments (args ++ [RSArg.o v])).1.mOutputDir = v)
    ∧ (ParseArguments [RSArg.emit_bc, RSArg.emit_asm]).1.mOutputType = .OT_Assembly := by
  refine ⟨fun args => ?_, fun args => ?_, fun args => ?_, fun args => ?_,
    fun args v => ?_, by decide⟩
  · rw [ParseArguments_mOutputType]
    unfold resolvedOpts applyOutputTypeGroup
    rw [getLastArg_concat _ _ _ rfl]
  · rw [ParseArguments_mOutputType]
    unfold resolvedOpts applyOutputTypeGroup
    rw [getLastArg_concat _ _ _ rfl]
  · rw [ParseArguments_mOutputType]
    unfold resolvedOpts applyOutputTypeGroup
    rw [getLastArg_concat _ _ _ rfl]
  · rw [ParseArguments_mOutputType]
    unfold resolvedOpts applyOutputTypeGroup
    rw [getLastArg_concat _ _ _ rfl]
  · rw [ParseArguments_mOutputDir]
    unfold resolvedOpts
    rw [applyOutputTypeGroup_mOutputDir, applyMGroup_mOutputDir]
    show getLastStringValue oValue "" (args ++ [RSArg.o v]) = v
    exact getLastStringValue_concat _ _ _ _ _ rfl

/-- C6 witness: the general last-wins statement applied to the concrete
vector `-emit-bc -emit-asm`. -/
theorem c6_last_occurrence_wins_witness :
    (ParseArguments [RSArg.emit_bc, RSArg.emit_asm]).1.mOutputType = .OT_Assembly :=
  c6_last_occurrence_wins.1 [RSArg.emit_bc]

lemma filterMap_concat_none (f : RSArg → Option String) (l : List RSArg)
    (a : RSArg) (h : f a = none) : (l ++ [a]).filterMap f = l.filterMap f := by
  rw [List.filterMap_append]
  simp [List.filterMap_cons, h]

lemma getLastArg_concat_skip (p : RSArg → Bool) (l : List RSArg) (a : RSArg)
    (h : p a = false) : getLastArg p (l ++ [a]) = getLastArg p l := by
  unfold getLastArg
  rw [List.filter_append]
  simp [List.filter_cons, h]

/-- `ParseArguments` only consults the modelled projections of the
argument list. -/
lemma ParseArguments_congr (args1 args2 : List RSArg)
    (h1 : args1.filterMap inputValue = args2.filterMap inputValue)
    (h2 : args1.filterMap includeValue = args2.filterMap includeValue)
    (h3 : args1.filterMap oValue = args2.filterMap oValue)
    (h4 : getLastArg isMGroup args1 = getLastArg isMGroup args2)
    (h5 : getLastArg isOutputTypeGroup args1 = getLastArg isOutputTypeGroup args2)
    (h6 : args1.filterMap outputDepDirValue = args2.filterMap outputDepDirValue) :
    ParseArguments args1 = ParseArguments args2 := by
  unfold ParseArguments resolvedOpts opts0 applyMGroup applyOutputTypeGroup
    getLastStringValue
  rw [h1, h2, h3, h4, h5, h6]

/-- Appending two arguments of the `-M`/`-MD` group leaves every modelled
projection of `ParseArguments` as if only the later one were appended. -/
lemma ParseArguments_mgroup_concat2 (args : List RSArg) (a b : RSArg)
    (hmb : isMGroup b = true)
    (hia : inputValue a = none) (hib : inputValue b = none)
    (hca : includeValue a = none) (hcb : includeValue b = none)
    (hoa : oValue a = none) (hob : oValue b = none)
    (hta : isOutputTypeGroup a = false) (htb : isOutputTypeGroup b = false)
    (hda : outputDepDirValue a = none) (hdb : outputDepDirValue b = none) :
    ParseArguments (args ++ [a, b]) = ParseArguments (args ++ [b]) := by
  have hsplit : args ++ [a, b] = (args ++ [a]) ++ [b] := by simp
  rw [hsplit]
  refine ParseArguments_congr _ _ ?_ ?_ ?_ ?_ ?_ ?_
  · rw [filterMap_concat_none _ _ _ hib, filterMap_concat_none _ _ _ hia,
      filterMap_concat_none _ _ _ hib]
  · rw [filterMap_concat_none _ _ _ hcb, filterMap_concat_none _ _ _ hca,
      filterMap_concat_none _ _ _ hcb]
  · rw [filterMap_concat_none _ _ _ hob, filterMap_concat_none _ _ _ hoa,
      filterMap_concat_none _ _ _ hob]
  · rw [getLastArg_concat _ _ _ hmb, getLastArg_concat _ _ _ hmb]
  · rw [getLastArg_concat_skip _ _ _ htb, getLastArg_concat_skip _ _ _ hta,
      getLastArg_concat_skip _ _ _ htb]
  · rw [filterMap_concat_none _ _ _ hdb, filterMap_concat_none _ _ _ hda,
      filterMap_concat_none _ _ _ hdb]

/-- C7: a last `-M` sets the dependency-output flag and (at the M-group
stage, and finally when no output-kind option is present) output kind
Dependency; a last `-MD` sets the flag and output kind Bitcode, so `-MD`
also emits the primary bitcode; `-M` and `-MD` are exclusive, the later
one winning. -/
theorem c7_dependency_mode :
    (∀ args : List RSArg, getLastArg isMGroup args = some RSArg.M →
      (ParseArguments args).1.mOutputDep = true ∧
      (∀ o : RSCCOptions, (applyMGroup o args).mOutputDep = true ∧
        (applyMGroup o args).mOutputType = .OT_Dependency) ∧
      (args.filter isOutputTypeGroup = [] →
        (ParseArguments args).1.mOutputType = .OT_Dependency))
    ∧ (∀ args : List RSArg, getLastArg isMGroup args = some RSArg.MD →
      (ParseArguments args).1.mOutputDep = true ∧
      (∀ o : RSCCOptions, (applyMGroup o args).mOutputDep = true ∧
        (applyMGroup o args).mOutputType = .OT_Bitcode) ∧
      (args.filter isOutputTypeGroup = [] →
        (ParseArguments args).1.mOutputType = .OT_Bitcode))
    ∧ (∀ args : List RSArg,
      ParseArguments (args ++ [RSArg.M, RSArg.MD]) = ParseArguments (args ++ [RSArg.MD]))
    ∧ (∀ args : List RSArg,
      ParseArguments (args ++ [RSArg.MD, RSArg.M]) = ParseArguments (args ++ [RSArg.M])) := by
  refine ⟨fun args h => ⟨?_, fun o => ?_, fun hfil => ?_⟩,
    fun args h => ⟨?_, fun o => ?_, fun hfil => ?_⟩, fun args => ?_, fun args => ?_⟩
  · rw [ParseArguments_mOutputDep]
    unfold resolvedOpts
    rw [applyOutputTypeGroup_mOutputDep]
    unfold applyMGroup
    rw [h]
  · unfold applyMGroup
    rw [h]
    exact ⟨rfl, rfl⟩
  · rw [ParseArguments_mOutputType]
    unfold resolvedOpts applyOutputTypeGroup getLastArg
    rw [hfil]
    unfold applyMGroup
    rw [h]
    rfl
  · rw [ParseArguments_mOutputDep]
    unfold resolvedOpts
    rw [applyOutputTypeGroup_mOutputDep]
    unfold applyMGroup
    rw [h]
  · unfold applyMGroup
    rw [h]
    exact ⟨rfl, rfl⟩
  · rw [ParseArguments_mOutputType]
    unfold resolvedOpts applyOutputTypeGroup getLastArg
    rw [hfil]
    unfold applyMGroup
    rw [h]
    rfl
  · exact ParseArguments_mgroup_concat2 args _ _ rfl rfl rfl rfl rfl rfl rfl
      rfl rfl rfl rfl
  · exact ParseArguments_mgroup_concat2 args _ _ rfl rfl rfl rfl rfl rfl rfl
      rfl rfl rfl rfl

/-- C7 witness: the theorem applied to the concrete vector `-M`. -/
theorem c7_dependency_mode_witness :
    (ParseArguments [RSArg.M]).1.mOutputDep = true ∧
      (ParseArguments [RSArg.M]).1.mOutputType = .OT_Dependency :=
  ⟨(c7_dependency_mode.1 [RSArg.M] (by decide)).1,
   (c7_dependency_mode.1 [RSArg.M] (by decide)).2.2 (by decide)⟩

/-! ### Claim theorems: output-path planning -/

lemma push_sep (s : String) : s.push OS_PATH_SEPARATOR = s ++ "/" := by
  rcases s with ⟨l⟩
  rfl

/-- The fixed suffix the spec assigns to each output kind. -/
def specSuffix : OutputType → String
  | .OT_Dependency => ".d"
  | .OT_Assembly => ".S"
  | .OT_LLVMAssembly => ".ll"
  | .OT_Object => ".o"
  | .OT_Bitcode => ".bc"
  | .OT_Nothing => ""

/-- The spec's directory normalization: a separator is appended exactly
when the directory is non-empty and does not already end with one. -/
def specNormDir (dir : String) : String :=
  if dir ≠ "" && !(dir.data.getLast? == some OS_PATH_SEPARATOR)
  then dir ++ "/" else dir

/-- C3: the planned path is the fixed null sink for kind Nothing, and
otherwise the normalized directory, the input's base name (the stem,
unmodified for Dependency kind), and the fixed per-kind suffix; with the
claim's concrete examples for `foo.rs` under `out` and `out/`. -/
theorem c3_output_path_shape :
    (∀ (dir f : String) (k : OutputType),
      DetermineOutputFile dir f k =
        if k = .OT_Nothing then "/dev/null"
        else specNormDir dir
          ++ (if k = .OT_Dependency then GetFileNameStem f
              else BCFileNameFromRSFileName f)
          ++ specSuffix k)
    ∧ DetermineOutputFile "out" "foo.rs" .OT_Bitcode = "out/foo.bc"
    ∧ DetermineOutputFile "out" "foo.rs" .OT_Dependency = "out/foo.d"
    ∧ DetermineOutputFile "out/" "foo.rs" .OT_Bitcode = "out/foo.bc"
    ∧ DetermineOutputFile "out/" "foo.rs" .OT_Dependency = "out/foo.d" := by
  refine ⟨fun dir f k => ?_, by decide, by decide, by decide, by decide⟩
  cases k <;>
    simp only [DetermineOutputFile, specNormDir, specSuffix] <;>
    split <;>
    simp [push_sep, String.append_assoc]

/-- C2: with dependency output enabled the planner emits exactly one
(bitcode path, dependency path) pair per input, in input order, reusing
the primary output path for the slot whose kind matches the primary kind
and computing the other slot for the dependency-output directory; two
inputs with `-MD -o out` yield two bitcode and two dependency outputs. -/
theorem c2_dependency_pairs :
    (∀ (opts : RSCCOptions) (inputs : List String), opts.mOutputDep = true →
      (planOutputs opts inputs).2 = inputs.map (fun f =>
        ((if opts.mOutputType = .OT_Bitcode
          then DetermineOutputFile opts.mOutputDir f opts.mOutputType
          else DetermineOutputFile opts.mOutputDepDir f .OT_Bitcode),
         (if opts.mOutputType = .OT_Dependency
          then DetermineOutputFile opts.mOutputDir f opts.mOutputType
          else DetermineOutputFile opts.mOutputDepDir f .OT_Dependency)))
      ∧ (planOutputs opts inputs).1 = inputs.map (fun f =>
          (f, DetermineOutputFile opts.mOutputDir f opts.mOutputType)))
    ∧ planOutputs
        (ParseArguments [RSArg.MD, RSArg.o "out", RSArg.input "a.rs",
          RSArg.input "b.rs"]).1
        (ParseArguments [RSArg.MD, RSArg.o "out", RSArg.input "a.rs",
          RSArg.input "b.rs"]).2.1 =
        ([("a.rs", "out/a.bc"), ("b.rs", "out/b.bc")],
         [("out/a.bc", "out/a.d"), ("out/b.bc", "out/b.d")]) := by
  refine ⟨fun opts inputs h => ?_, by decide⟩
  induction inputs with
  | nil => exact ⟨rfl, rfl⟩
  | cons f rest ih =>
    obtain ⟨ih1, ih2⟩ := ih
    refine ⟨?_, ?_⟩ <;> simp [planOutputs, planOne, h, ih1, ih2]

/-- C2 witness: the pair characterization applied at concrete resolved
options with one input. -/
theorem c2_dependency_pairs_witness :
    (planOutputs
      { mIncludePaths := [], mOutputDir := "out",
        mOutputType := OutputType.OT_Bitcode, mOutputDep := true,
        mOutputDepDir := "dep" } ["a.rs"]).2 = [("out/a.bc", "dep/a.d")] := by
  rw [(c2_dependency_pairs.1
    { mIncludePaths := [], mOutputDir := "out",
      mOutputType := OutputType.OT_Bitcode, mOutputDep := true,
      mOutputDepDir := "dep" } ["a.rs"] rfl).1]
  decide

/-- C10: the reused companion path was computed with the primary `-o`
directory; only the freshly computed companion uses `-output-dep-dir`,
so `-MD -o A -output-dep-dir B` on `foo.rs` plans bitcode `A/foo.bc`
and dependency file `B/foo.d`. -/
theorem c10_companion_directories :
    (∀ (opts : RSCCOptions) (f : String), opts.mOutputDep = true →
      opts.mOutputType = .OT_Bitcode →
      (planOne opts f).2 = some (DetermineOutputFile opts.mOutputDir f .OT_Bitcode,
        DetermineOutputFile opts.mOutputDepDir f .OT_Dependency))
    ∧ (∀ (opts : RSCCOptions) (f : String), opts.mOutputDep = true →
      opts.mOutputType = .OT_Dependency →
      (planOne opts f).2 = some (DetermineOutputFile opts.mOutputDepDir f .OT_Bitcode,
        DetermineOutputFile opts.mOutputDir f .OT_Dependency))
    ∧ planOne (ParseArguments [RSArg.MD, RSArg.o "A", RSArg.output_dep_dir "B",
        RSArg.input "foo.rs"]).1 "foo.rs" =
        (("foo.rs", "A/foo.bc"), some ("A/foo.bc", "B/foo.d")) := by
  refine ⟨fun opts f h ht => ?_, fun opts f h ht => ?_, by decide⟩
  · simp [planOne, h, ht]
  · simp [planOne, h, ht]

/-- C10 witness: the Bitcode-kind case applied at concrete resolved
options. -/
theorem c10_companion_directories_witness :
    (planOne
      { mIncludePaths := [], mOutputDir := "A",
        mOutputType := OutputType.OT_Bitcode, mOutputDep := true,
        mOutputDepDir := "B" } "foo.rs").2 =
      some (DetermineOutputFile "A" "foo.rs" .OT_Bitcode,
        DetermineOutputFile "B" "foo.rs" .OT_Dependency) :=
  c10_companion_directories.1
    { mIncludePaths := [], mOutputDir := "A",
      mOutputType := OutputType.OT_Bitcode, mOutputDep := true,
      mOutputDepDir := "B" } "foo.rs" rfl rfl

/-! ### Helper lemmas: tokenization -/

lemma cIsSpace_dquote : cIsSpace dquote = false := by decide

lemma cIsSpace_squote : cIsSpace squote = false := by decide

lemma cIsSpace_backslash : cIsSpace backslash = false := by decide

lemma dquote_beq_space : (dquote == ' ') = false := by decide

lemma squote_beq_space : (squote == ' ') = false := by decide

lemma space_beq_dquote : ((' ' : Char) == dquote) = false := by decide

lemma space_beq_squote : ((' ' : Char) == squote) = false := by decide

lemma dquote_beq_squote : (dquote == squote) = false := by decide

lemma squote_beq_dquote : (squote == dquote) = false := by decide

lemma backslash_beq_dquote : (backslash == dquote) = false := by decide

lemma backslash_beq_squote : (backslash == squote) = false := by decide

lemma flushArg_empty (acc : List String) : flushArg acc "" = acc := rfl

lemma tokLoop_cons (q : Char) (cur : String) (acc : List String) (c : Char)
    (rest : List Char) :
    tokLoop q cur acc (c :: rest) =
      if cIsSpace c && (q == ' ') then tokLoop q "" (flushArg acc cur) rest
      else if cIsSpace c then tokLoop q (cur.push c) acc rest
      else if c == dquote || c == squote then
        (if q == c then tokLoop ' ' cur acc rest
         else if q == ' ' then tokLoop c cur acc rest
         else tokLoop q (cur.push c) acc rest)
      else if c == backslash then
        (match rest with
         | [] => none
         | d :: rest2 => tokLoop q (cur.push d) acc rest2)
      else tokLoop q (cur.push c) acc rest := by
  rw [tokLoop.eq_def]

/-! ### Claim theorems: tokenization -/

/-- C4 (code bug): a backslash appends the immediately following
character literally to the current token, in any quote state — but a
backslash that is the last character of the buffer makes the scan consume
the NUL terminator and keep reading out of bounds (modelled as `none`),
instead of terminating with the tokens accumulated so far. -/
theorem c4_backslash_escape :
    (∀ (q : Char) (cur : String) (acc : List String) (d : Char)
      (rest : List Char),
      tokLoop q cur acc (backslash :: d :: rest) = tokLoop q (cur.push d) acc rest)
    ∧ tokenize ['a', backslash, ' ', 'b'] = some ["a b"]
    ∧ tokenize ['a', backslash] = none := by
  refine ⟨fun q cur acc d rest => ?_, by decide, by decide⟩
  simp [tokLoop_cons, cIsSpace_backslash, backslash_beq_dquote,
    backslash_beq_squote]

/-- C8: whitespace outside quotes separates tokens and runs of whitespace
collapse; a quote character opens a mode in which whitespace is kept in
the token until the matching quote closes it, and the quote characters
themselves are never appended; `a "b c" d` tokenizes to `a`, `b c`, `d`. -/
theorem c8_quote_tokenization :
    tokenize ['a', ' ', dquote, 'b', ' ', 'c', dquote, ' ', 'd'] =
      some ["a", "b c", "d"]
    ∧ (∀ (ws : List Char) (cur : String) (acc : List String) (rest : List Char),
      ws ≠ [] → (∀ c ∈ ws, cIsSpace c = true) →
      tokLoop ' ' cur acc (ws ++ rest) = tokLoop ' ' "" (flushArg acc cur) rest)
    ∧ (∀ (q : Char) (cur : String) (acc : List String) (c : Char)
      (rest : List Char), (q = dquote ∨ q = squote) → cIsSpace c = true →
      tokLoop q cur acc (c :: rest) = tokLoop q (cur.push c) acc rest)
    ∧ (∀ (q : Char) (cur : String) (acc : List String) (rest : List Char),
      (q = dquote ∨ q = squote) →
      tokLoop ' ' cur acc (q :: rest) = tokLoop q cur acc rest
      ∧ tokLoop q cur acc (q :: rest) = tokLoop ' ' cur acc rest) := by
  refine ⟨by decide, ?_, ?_, ?_⟩
  · intro ws
    induction ws with
    | nil => intro cur acc rest hne hsp; exact absurd rfl hne
    | cons c ws2 ih =>
      intro cur acc rest hne hsp
      have hc : cIsSpace c = true := hsp c (List.mem_cons_self _ _)
      have step : tokLoop ' ' cur acc ((c :: ws2) ++ rest)
          = tokLoop ' ' "" (flushArg acc cur) (ws2 ++ rest) := by
        simp [tokLoop_cons, hc]
      rw [step]
      cases ws2 with
      | nil => rfl
      | cons d ws3 =>
        exact ih "" (flushArg acc cur) rest (by simp)
          (fun x hx => hsp x (List.mem_cons_of_mem _ hx))
  · intro q cur acc c rest hq hc
    rcases hq with rfl | rfl
    · simp [tokLoop_cons, hc, dquote_beq_space]
    · simp [tokLoop_cons, hc, squote_beq_space]
  · intro q cur acc rest hq
    rcases hq with rfl | rfl
    · constructor
      · simp [tokLoop_cons, cIsSpace_dquote, space_beq_dquote]
      · simp [tokLoop_cons, cIsSpace_dquote]
    · constructor
      · simp [tokLoop_cons, cIsSpace_squote, space_beq_squote, space_beq_dquote,
          squote_beq_dquote]
      · simp [tokLoop_cons, cIsSpace_squote, squote_beq_dquote]

/-- C8 witness: the run-collapsing part applied at a concrete buffer of
two spaces, together with the concrete quoted example. -/
theorem c8_quote_tokenization_witness :
    tokenize ['a', ' ', dquote, 'b', ' ', 'c', dquote, ' ', 'd'] =
      some ["a", "b c", "d"]
    ∧ tokLoop ' ' "x" [] ([' ', ' '] ++ ['y']) = tokLoop ' ' "" ["x"] ['y'] :=
  ⟨c8_quote_tokenization.1,
   c8_quote_tokenization.2.1 [' ', ' '] "x" [] ['y'] (by decide)
     (by decide)⟩

/-! ### Helper lemmas: argument expansion -/

lemma optAppend_assoc (a b c : Option (List String)) :
    optAppend (optAppend a b) c = optAppend a (optAppend b c) := by
  cases a <;> cases b <;> cases c <;> simp [optAppend]

lemma optAppend_nil_left (b : Option (List String)) :
    optAppend (some []) b = b := by
  cases b <;> rfl

lemma optAppend_eq_some (a b : Option (List String)) (r : List String) :
    optAppend a b = some r ↔ ∃ x y, a = some x ∧ b = some y ∧ r = x ++ y := by
  cases a <;> cases b <;> simp [optAppend, eq_comm]

lemma expandList_zero (fs : String → Option String) (toks : List String) :
    expandList fs 0 toks =
      if toks.all (fun t => !(isAtArg t && (fs (argFileName t)).isSome))
      then some toks else none := rfl

lemma expandList_succ_cons (fs : String → Option String) (fuel : Nat)
    (tok : String) (rest : List String) :
    expandList fs (fuel + 1) (tok :: rest) =
      optAppend (if isAtArg tok then ExpandArgsFromBuf fs fuel tok else some [tok])
        (expandList fs (fuel + 1) rest) := rfl

lemma ExpandArgsFromBuf_open_fail (fs : String → Option String) (fuel : Nat)
    (arg : String) (h : fs (argFileName arg) = none) :
    ExpandArgsFromBuf fs fuel arg = some [arg] := by
  unfold ExpandArgsFromBuf
  rw [h]

lemma expandList_append (fs : String → Option String) (fuel : Nat)
    (l1 l2 : List String) :
    expandList fs (fuel + 1) (l1 ++ l2) =
      optAppend (expandList fs (fuel + 1) l1) (expandList fs (fuel + 1) l2) := by
  induction l1 with
  | nil =>
    rw [List.nil_append]
    exact (optAppend_nil_left _).symm
  | cons t l1x ih =>
    rw [List.cons_append, expandList_succ_cons, expandList_succ_cons, ih,
      optAppend_assoc]

/-- A token list with no `@`-token expands to itself. -/
lemma expandList_no_at (fs : String → Option String) (fuel : Nat) :
    ∀ v : List String, (∀ t ∈ v, isAtArg t = false) →
      expandList fs fuel v = some v := by
  cases fuel with
  | zero =>
    intro v h
    rw [expandList_zero, if_pos]
    exact List.all_eq_true.mpr fun t ht => by rw [h t ht]; rfl
  | succ n =>
    intro v h
    induction v with
    | nil => rfl
    | cons t rest ih =>
      rw [expandList_succ_cons, h t (List.mem_cons_self t rest),
        ih fun x hx => h x (List.mem_cons_of_mem _ hx)]
      rfl

/-- A token list whose `@`-tokens all name unopenable files expands to
itself. -/
lemma expandList_all_fail (fs : String → Option String) (fuel : Nat) :
    ∀ v : List String, (∀ t ∈ v, isAtArg t = true → fs (argFileName t) = none) →
      expandList fs fuel v = some v := by
  cases fuel with
  | zero =>
    intro v h
    rw [expandList_zero, if_pos]
    refine List.all_eq_true.mpr fun t ht => ?_
    cases hat : isAtArg t with
    | false => rfl
    | true => rw [h t ht hat]; rfl
  | succ n =>
    intro v h
    induction v with
    | nil => rfl
    | cons t rest ih =>
      rw [expandList_succ_cons, ih fun x hx => h x (List.mem_cons_of_mem _ hx)]
      cases hat : isAtArg t with
      | false => rfl
      | true =>
        rw [if_pos rfl,
          ExpandArgsFromBuf_open_fail fs n t (h t (List.mem_cons_self t rest) hat)]
        rfl

/-- Every `@`-token surviving in an expansion result names a file that
cannot be opened. -/
lemma expandList_at_none (fs : String → Option String) :
    ∀ (fuel : Nat) (v r : List String), expandList fs fuel v = some r →
      ∀ t ∈ r, isAtArg t = true → fs (argFileName t) = none := by
  intro fuel
  induction fuel with
  | zero =>
    intro v r h t ht hat
    rw [expandList_zero] at h
    split at h
    case isTrue hall =>
      cases h
      have hx := List.all_eq_true.mp hall t ht
      rw [hat] at hx
      cases hfs : fs (argFileName t) with
      | none => rfl
      | some a => rw [hfs] at hx; simp at hx
    case isFalse hnall => cases h
  | succ n ihf =>
    intro v
    induction v with
    | nil =>
      intro r h t ht hat
      rw [show expandList fs (n + 1) [] = some [] from rfl] at h
      cases h
      cases ht
    | cons tok rest ihv =>
      intro r h t ht hat
      rw [expandList_succ_cons, optAppend_eq_some] at h
      obtain ⟨x, y, hx, hy, rfl⟩ := h
      rcases List.mem_append.mp ht with htx | hty
      · by_cases hat0 : isAtArg tok = true
        · rw [if_pos hat0] at hx
          unfold ExpandArgsFromBuf at hx
          cases hfs : fs (argFileName tok) with
          | none =>
            rw [hfs] at hx
            dsimp only at hx
            cases hx
            obtain rfl := List.mem_singleton.mp htx
            exact hfs
          | some buf =>
            rw [hfs] at hx
            dsimp only at hx
            cases htk : tokenize buf.data with
            | none => rw [htk] at hx; cases hx
            | some ts => rw [htk] at hx; exact ihf ts x hx t htx hat
        · rw [if_neg hat0] at hx
          cases hx
          obtain rfl := List.mem_singleton.mp htx
          exact absurd hat hat0
      · exact ihv y hy t hty hat

/-! ### Claim theorems: argument expansion -/

/-- C5: an `@path` argument whose file cannot be opened is kept in place
as the literal token, with no error at the expansion stage (the expansion
still succeeds); the failure can only surface later, at option
resolution, as an unknown-argument diagnostic. -/
theorem c5_unopenable_response_file :
    ∀ (fs : String → Option String) (fuel : Nat) (arg : String)
      (l1 l2 : List String), isAtArg arg = true → fs (argFileName arg) = none →
      ExpandArgsFromBuf fs fuel arg = some [arg]
      ∧ ExpandArgv fs (fuel + 1) (l1 ++ arg :: l2) =
          optAppend (ExpandArgv fs (fuel + 1) l1)
            (optAppend (some [arg]) (ExpandArgv fs (fuel + 1) l2)) := by
  intro fs fuel arg l1 l2 hat hfs
  refine ⟨ExpandArgsFromBuf_open_fail fs fuel arg hfs, ?_⟩
  show expandList fs (fuel + 1) (l1 ++ arg :: l2) = _
  rw [expandList_append, expandList_succ_cons, if_pos hat,
    ExpandArgsFromBuf_open_fail fs fuel arg hfs]
  rfl

/-- C5 witness: the theorem applied to a file system with no openable
files, the argument `@x` and concrete neighbours. -/
theorem c5_unopenable_response_file_witness :
    ExpandArgsFromBuf (fun _ => none) 0 "@x" = some ["@x"]
    ∧ ExpandArgv (fun _ => none) 1 (["a"] ++ "@x" :: ["b"]) =
        optAppend (ExpandArgv (fun _ => none) 1 ["a"])
          (optAppend (some ["@x"]) (ExpandArgv (fun _ => none) 1 ["b"])) :=
  c5_unopenable_response_file (fun _ => none) 0 "@x" ["a"] ["b"] (by decide) rfl

/-- C9: expansion of a vector with no `@`-token returns it unchanged, and
expansion is idempotent: re-expanding any successful expansion result
returns it unchanged. -/
theorem c9_expand_idempotent :
    ∀ (fs : String → Option String) (fuel : Nat) (v : List String),
      ((∀ t ∈ v, isAtArg t = false) → ExpandArgv fs fuel v = some v)
      ∧ (∀ r : List String, ExpandArgv fs fuel v = some r →
          ExpandArgv fs fuel r = some r) := by
  intro fs fuel v
  refine ⟨fun h => expandList_no_at fs fuel v h, fun r hr => ?_⟩
  exact expandList_all_fail fs fuel r
    (fun t ht hat => expandList_at_none fs fuel v r hr t ht hat)

/-- C9 witness: the no-`@` part applied to a concrete vector. -/
theorem c9_expand_idempotent_witness :
    ExpandArgv (fun _ => none) 2 ["a", "b c"] = some ["a", "b c"] :=
  (c9_expand_idempotent (fun _ => none) 2 ["a", "b c"]).1 (by decide)

end LlvmRsCc
